import Mathlib

/-!
Verification of the evdev input back-end (`src/evdev.rs`): the device
monitor multiplexer, its device table, event translator, per-device read
loop and the `futures` poll algorithm, shallowly embedded in Lean.

Machine integers are modelled as `Nat`/`Int`; the one place where a
fixed-width overflow can occur (`REL_CNT + event.code`, a `u16` addition)
carries an explicit `% 65536`.
-/

set_option autoImplicit false

namespace Wair

/-- Stable device identity: the udev `sysname` (a `CString` in the source),
used as the Device Table key. -/
abbrev DeviceID := String

/-- One open device node (`PollEvented<Device>` in the source).  The
embedding only tracks its identity, so that dropping or replacing a handle
is observable; the field stands for the underlying kernel handle. -/
structure Handle where
  hid : Nat
deriving DecidableEq

/-- The semantic event vocabulary produced by this back-end
(`common::Event<WindowID, DeviceID>`).  The window-scoped variants of the
wider vocabulary are omitted because `WindowID` wraps `Void` and is
uninhabited here: this back-end can never construct them.  `RawMotion`'s
value is an `f64` in the source, produced by the exact widening
`event.value as f64` from an `i32`; it is carried as the integer it
represents (see `f64ExactInt`). -/
inductive Event where
  | DeviceAdded (device : DeviceID)
  | DeviceRemoved (device : DeviceID)
  | RawButtonPress (device : DeviceID) (button : Nat)
  | RawButtonRelease (device : DeviceID) (button : Nat)
  | RawMotion (device : DeviceID) (axis : Nat) (value : Int)
deriving DecidableEq

/-- Classifier: events produced by the raw-record translator. -/
def isRawInputEvent : Event → Bool
  | .RawButtonPress _ _ => true
  | .RawButtonRelease _ _ => true
  | .RawMotion _ _ _ => true
  | _ => false

/-- Classifier: device-lifecycle events produced by the monitor drain. -/
def isLifecycleEvent : Event → Bool
  | .DeviceAdded _ => true
  | .DeviceRemoved _ => true
  | _ => false

/-- One raw evdev record (`libevdev::InputEvent`): `type_ : u16`,
`code : u16`, `value : i32`. -/
structure InputEvent where
  type_ : Nat
  code : Nat
  value : Int
deriving DecidableEq

/-- Modelled from the spec: the Linux input event-code constants from the
platform `linux_event_codes` module, which is not among the provided
sources; the values are the kernel's (`input-event-codes.h`). -/
def EV_SYN : Nat := 0

/-- Kernel event-type constant, see `EV_SYN`. -/
def EV_KEY : Nat := 1

/-- Kernel event-type constant, see `EV_SYN`. -/
def EV_REL : Nat := 2

/-- Kernel event-type constant, see `EV_SYN`. -/
def EV_ABS : Nat := 3

/-- Kernel event-type constant, see `EV_SYN`. -/
def EV_MSC : Nat := 4

/-- Modelled from the spec: `REL_CNT = REL_MAX + 1 = 0x10`, the number of
relative-axis codes, from the kernel headers mirrored by the missing
`linux_event_codes` module.  In the source it is a `u16`. -/
def REL_CNT : Nat := 16

/-- The Event Translator, `Stream::map_device_event`.  Pure and total: one
raw record to zero or one semantic event.  The absolute-axis arm computes
`(codes::REL_CNT + event.code) as u32`; the addition is performed at `u16`,
hence the `% 65536`, and the subsequent widening cast to `u32` is exact.
The key arms reproduce the source as written: value `0` yields
`RawButtonPress` and value `1` yields `RawButtonRelease`; value `2`
(auto-repeat) and any other value yield no event (the latter after a
warning log). -/
def map_device_event (id : DeviceID) (event : InputEvent) : Option Event :=
  if event.type_ = EV_SYN then none
  else if event.type_ = EV_KEY then
    if event.value = 0 then
      some (Event.RawButtonPress id event.code)
    else if event.value = 1 then
      some (Event.RawButtonRelease id event.code)
    else if event.value = 2 then
      none
    else
      none
  else if event.type_ = EV_ABS then
    some (Event.RawMotion id ((REL_CNT + event.code) % 65536) event.value)
  else if event.type_ = EV_REL then
    some (Event.RawMotion id event.code event.value)
  else if event.type_ = EV_MSC then
    none
  else
    none

/-- Exactness condition for the `i32 → f64` widening in the motion arms:
an IEEE-754 binary64 value represents every integer of magnitude at most
`2 ^ 53` exactly, so converting such an integer rounds to itself.  Lean
carries the integer directly; this predicate states when that is faithful. -/
def f64ExactInt (n : Int) : Prop := n.natAbs ≤ 2 ^ 53

/-- One hot-plug notification as delivered by `udev::Monitor::receive_device`
(or one enumerated device, in which case `action` is irrelevant):
the action string, the `sysname` identity and the optional device node path. -/
structure UdevDevice where
  action : String
  sysname : String
  devnode : Option String
deriving DecidableEq

/-- The Device Table is `HashMap<CString, PollEvented<Device>>`; it is
embedded as an association list whose operations reproduce the map
semantics (`insert` replaces the value of a present key, `remove` deletes
it and returns the old value).  Key order stands in for the map's
unspecified iteration order. -/
abbrev Table := List (DeviceID × Handle)

/-- Key set of the Device Table. -/
def keys (t : Table) : List DeviceID := t.map Prod.fst

/-- `HashMap::insert`: replace the entry of a present key, else append. -/
def tblInsert (k : DeviceID) (v : Handle) : Table → Table
  | [] => [(k, v)]
  | p :: t => if p.1 = k then (k, v) :: t else p :: tblInsert k v t

/-- `HashMap::get`-style lookup (used only to state properties). -/
def tblGet (k : DeviceID) : Table → Option Handle
  | [] => none
  | p :: t => if p.1 = k then some p.2 else tblGet k t

/-- `HashMap::remove`: drop the entry of the key, returning the old handle
(the source drops it, closing the underlying node). -/
def tblRemove (k : DeviceID) : Table → Option Handle × Table
  | [] => (none, [])
  | p :: t =>
    if p.1 = k then (some p.2, t)
    else
      let r := tblRemove k t
      (r.1, p :: r.2)

/-- `Stream::open_device`: open the node read-only non-blocking, wrap it
and insert it into the table.  The fallible OS steps (`libc::open`,
`libevdev::Device::new_from_fd`, `PollEvented::new`) are abstracted by the
oracle `openRes`, which yields the freshly opened handle on success;
`none` is the `io::Result` error path (every partial failure closes what it
opened before returning).  On success the new handle is inserted — the
source performs no containment check, so a present key has its old handle
replaced (and thereby dropped). -/
def open_device (openRes : String → Option Handle) (sysname : DeviceID)
    (node : String) (devices : Table) : Option Table :=
  match openRes node with
  | none => none
  | some h => some (tblInsert sysname h devices)

/-- `Stream::map_udev_event`: route one monitor notification.  Returns the
optional semantic event together with the updated table.  `add` with no
devnode or a failed open logs and yields nothing; `remove` of an unknown
key logs and yields nothing; unknown actions warn and yield nothing. -/
def map_udev_event (openRes : String → Option Handle) (device : UdevDevice)
    (devices : Table) : Option Event × Table :=
  if device.action = "add" then
    match device.devnode with
    | none => (none, devices)
    | some node =>
      match open_device openRes device.sysname node devices with
      | none => (none, devices)
      | some t => (some (Event.DeviceAdded device.sysname), t)
  else if device.action = "remove" then
    match tblRemove device.sysname devices with
    | (none, t) => (none, t)
    | (some _, t) => (some (Event.DeviceRemoved device.sysname), t)
  else
    (none, devices)

/-- `Stream::open_existing_devices`: walk the enumeration of currently
present input-class devices, opening each one that has a devnode;
per-device failures are logged and skipped.  It never touches the Event
Buffer (its type shows it: only the table is threaded through). -/
def open_existing_devices (openRes : String → Option Handle) :
    List UdevDevice → Table → Table
  | [], devices => devices
  | d :: ds, devices =>
    match d.devnode with
    | none => open_existing_devices openRes ds devices
    | some node =>
      match open_device openRes d.sysname node devices with
      | none => open_existing_devices openRes ds devices
      | some t => open_existing_devices openRes ds t

/-- The mutable state of a `Stream`: the Device Table and the Event
Buffer (`VecDeque`, FIFO). -/
structure StreamState where
  devices : Table
  buffer : List Event
deriving DecidableEq

/-- `Stream::new`: create the monitor context, register it, then seed the
table via `open_existing_devices` starting from the empty table and the
empty buffer.  `setupOk` abstracts the fallible setup (monitor creation,
filter installation, poll registration, enumeration setup), whose failure
is the only fatal construction error; per-device open failures inside the
seeding loop are non-fatal. -/
def Stream.new (setupOk : Bool) (openRes : String → Option Handle)
    (enum : List UdevDevice) : Option StreamState :=
  if setupOk then
    some ⟨open_existing_devices openRes enum [], []⟩
  else
    none

/-- Result of `libevdev::Device::next_event`: `Again` (no more data for
this pass, or sync complete while in sync mode), `Sync` (buffer overrun:
the record belongs to the resynchronization sequence), `Success` (a normal
record). -/
inductive ReadStatus where
  | Again
  | Sync (e : InputEvent)
  | Success (e : InputEvent)
deriving DecidableEq

/-- The flag passed to `next_event`: `READ_FLAG_NORMAL` or
`READ_FLAG_SYNC`. -/
inductive ReadFlag where
  | NORMAL
  | SYNC
deriving DecidableEq

/-- The body of each arm of the `poll_device` loop:
`if let Some(x) = self.map_device_event(id, e) { buffer.push_back(x) }`. -/
def pushTranslated (id : DeviceID) (e : InputEvent) (buf : List Event) :
    List Event :=
  match map_device_event id e with
  | some x => buf ++ [x]
  | none => buf

/-- The `loop` of `Stream::poll_device`, instrumented with the trace of
flags passed to `next_event` (second component).  The device's successive
read results are the list `reads`; the loop stops at the first `Again`,
sets the flag to `READ_FLAG_SYNC` upon a `Sync` result, and pushes every
translated record onto the buffer. -/
def poll_device_go (id : DeviceID) (flag : ReadFlag) (reads : List ReadStatus)
    (buf : List Event) : List Event × List ReadFlag :=
  match reads with
  | [] => (buf, [])
  | ReadStatus.Again :: _ => (buf, [flag])
  | ReadStatus.Sync e :: rest =>
    let r := poll_device_go id ReadFlag.SYNC rest (pushTranslated id e buf)
    (r.1, flag :: r.2)
  | ReadStatus.Success e :: rest =>
    let r := poll_device_go id flag rest (pushTranslated id e buf)
    (r.1, flag :: r.2)

/-- `Stream::poll_device`: drain one device, starting every pass with
`let mut flag = libevdev::READ_FLAG_NORMAL` — the resync flag is a local
of the pass, not persistent state.  Returns the buffer after the pass. -/
def poll_device (id : DeviceID) (reads : List ReadStatus)
    (buf : List Event) : List Event :=
  (poll_device_go id ReadFlag.NORMAL reads buf).1

/-- The environment of one `poll` invocation: monitor readiness
(`udev.poll_read`), per-device readiness (`PollEvented::poll_read`),
the read results each device will deliver this pass, the pending monitor
notifications (`receive_device` drained to `None`), and the open oracle
for `add` notifications. -/
structure PollInput where
  monReady : Bool
  devReady : DeviceID → Bool
  devReads : DeviceID → List ReadStatus
  notifs : List UdevDevice
  openRes : String → Option Handle

/-- The guard of poll's early return: neither the monitor nor any open
device is read-ready (`NotReady == udev.poll_read() && all devices
NotReady`). -/
def sourcesNotReady (inp : PollInput) (devs : Table) : Bool :=
  !inp.monReady && devs.all (fun p => !inp.devReady p.1)

/-- The device drain pass: `for (id, device) in devices { poll_device }`,
in table order, threading the shared buffer.  It does not touch the table
(the source iterates it under a borrow and never mutates it). -/
def drain_devices (inp : PollInput) : Table → List Event → List Event
  | [], buf => buf
  | p :: rest, buf =>
    drain_devices inp rest (poll_device p.1 (inp.devReads p.1) buf)

/-- The monitor drain pass: `loop { receive_device }` until no
notification remains, routing each through `map_udev_event` and pushing
the produced event, in notification order, onto the buffer. -/
def drain_monitor (openRes : String → Option Handle) :
    List UdevDevice → Table → List Event → Table × List Event
  | [], devs, buf => (devs, buf)
  | n :: rest, devs, buf =>
    match map_udev_event openRes n devs with
    | (none, devs2) => drain_monitor openRes rest devs2 buf
    | (some e, devs2) => drain_monitor openRes rest devs2 (buf ++ [e])

/-- Result of one poll: `Async::NotReady` or `Async::Ready(Some(event))`.
The stream's error type is never constructed, and `Ready(None)` is never
produced, so neither appears here. -/
inductive PollRes where
  | NotReady
  | Ready (e : Event)
deriving DecidableEq

/-- `<&Stream as futures::stream::Stream>::poll`.  Step 1: if no source is
read-ready, return `NotReady` at once (the buffer is not consulted and no
interest is re-armed).  Step 2: drain every open device.  Step 3: drain
the monitor.  Step 4: pop the oldest buffered event; if the buffer is
empty, call `self.udev.need_read()` and return `NotReady`.  The third
component counts the `need_read` (re-arm) calls of the invocation. -/
def Stream.poll (inp : PollInput) (s : StreamState) :
    PollRes × StreamState × Nat :=
  if sourcesNotReady inp s.devices then
    (PollRes.NotReady, s, 0)
  else
    let dm := drain_monitor inp.openRes inp.notifs s.devices
      (drain_devices inp s.devices s.buffer)
    match dm.2 with
    | [] => (PollRes.NotReady, ⟨dm.1, []⟩, 1)
    | e :: rest => (PollRes.Ready e, ⟨dm.1, rest⟩, 0)

/-! Helper lemmas about the embedded operations. -/

theorem pushTranslated_eq_append (id : DeviceID) (e : InputEvent)
    (buf : List Event) :
    pushTranslated id e buf = buf ++ pushTranslated id e [] := by
  unfold pushTranslated
  cases map_device_event id e <;> simp

theorem poll_device_go_split (id : DeviceID) (reads : List ReadStatus) :
    ∀ (flag : ReadFlag) (buf : List Event),
      poll_device_go id flag reads buf =
        (buf ++ (poll_device_go id flag reads []).1,
         (poll_device_go id flag reads []).2) := by
  induction reads with
  | nil => intro flag buf; simp [poll_device_go]
  | cons r rest ih =>
    intro flag buf
    cases r with
    | Again => simp [poll_device_go]
    | Sync e =>
      simp only [poll_device_go]
      rw [ih ReadFlag.SYNC (pushTranslated id e buf),
        ih ReadFlag.SYNC (pushTranslated id e [])]
      simp [pushTranslated_eq_append id e buf]
    | Success e =>
      simp only [poll_device_go]
      rw [ih flag (pushTranslated id e buf), ih flag (pushTranslated id e [])]
      simp [pushTranslated_eq_append id e buf]

theorem poll_device_split (id : DeviceID) (reads : List ReadStatus)
    (buf : List Event) :
    poll_device id reads buf = buf ++ poll_device id reads [] := by
  unfold poll_device
  rw [poll_device_go_split]

theorem drain_devices_split (inp : PollInput) (devs : Table) :
    ∀ buf : List Event,
      drain_devices inp devs buf = buf ++ drain_devices inp devs [] := by
  induction devs with
  | nil => intro buf; simp [drain_devices]
  | cons p rest ih =>
    intro buf
    simp only [drain_devices]
    rw [ih (poll_device p.1 (inp.devReads p.1) buf),
      ih (poll_device p.1 (inp.devReads p.1) []),
      poll_device_split p.1 (inp.devReads p.1) buf]
    simp

theorem drain_monitor_cons_none (o : String → Option Handle)
    (n : UdevDevice) (rest : List UdevDevice) (devs : Table)
    (buf : List Event) (devs2 : Table)
    (h : map_udev_event o n devs = (none, devs2)) :
    drain_monitor o (n :: rest) devs buf = drain_monitor o rest devs2 buf := by
  simp only [drain_monitor]
  rw [h]

theorem drain_monitor_cons_some (o : String → Option Handle)
    (n : UdevDevice) (rest : List UdevDevice) (devs : Table)
    (buf : List Event) (e : Event) (devs2 : Table)
    (h : map_udev_event o n devs = (some e, devs2)) :
    drain_monitor o (n :: rest) devs buf =
      drain_monitor o rest devs2 (buf ++ [e]) := by
  simp only [drain_monitor]
  rw [h]

theorem drain_monitor_split (o : String → Option Handle)
    (ns : List UdevDevice) :
    ∀ (devs : Table) (buf : List Event),
      drain_monitor o ns devs buf =
        ((drain_monitor o ns devs []).1,
         buf ++ (drain_monitor o ns devs []).2) := by
  induction ns with
  | nil => intro devs buf; simp [drain_monitor]
  | cons n rest ih =>
    intro devs buf
    cases h : map_udev_event o n devs with
    | mk eOpt devs2 =>
      cases eOpt with
      | none =>
        rw [drain_monitor_cons_none o n rest devs buf devs2 h,
          drain_monitor_cons_none o n rest devs [] devs2 h]
        exact ih devs2 buf
      | some e =>
        rw [drain_monitor_cons_some o n rest devs buf e devs2 h,
          drain_monitor_cons_some o n rest devs [] e devs2 h]
        simp only [List.nil_append]
        rw [ih devs2 (buf ++ [e]), ih devs2 [e]]
        simp

theorem map_device_event_raw (id : DeviceID) (ev : InputEvent)
    (x : Event) (h : map_device_event id ev = some x) :
    isRawInputEvent x = true := by
  unfold map_device_event at h
  split_ifs at h <;>
    first
      | exact Option.noConfusion h
      | (injection h with h2; rw [← h2]; rfl)

theorem mem_pushTranslated (id : DeviceID) (e : InputEvent)
    (buf : List Event) (x : Event) (hx : x ∈ pushTranslated id e buf) :
    x ∈ buf ∨ isRawInputEvent x = true := by
  unfold pushTranslated at hx
  cases h : map_device_event id e with
  | none => rw [h] at hx; exact Or.inl hx
  | some y =>
    rw [h] at hx
    rcases List.mem_append.mp hx with hb | hy
    · exact Or.inl hb
    · right
      have : x = y := List.mem_singleton.mp hy
      subst this
      exact map_device_event_raw id e x h

theorem mem_poll_device_go (id : DeviceID) (reads : List ReadStatus) :
    ∀ (flag : ReadFlag) (buf : List Event) (x : Event),
      x ∈ (poll_device_go id flag reads buf).1 →
        x ∈ buf ∨ isRawInputEvent x = true := by
  induction reads with
  | nil => intro flag buf x hx; exact Or.inl hx
  | cons r rest ih =>
    intro flag buf x hx
    cases r with
    | Again => exact Or.inl hx
    | Sync e =>
      simp only [poll_device_go] at hx
      rcases ih ReadFlag.SYNC (pushTranslated id e buf) x hx with hb | hr
      · exact mem_pushTranslated id e buf x hb
      · exact Or.inr hr
    | Success e =>
      simp only [poll_device_go] at hx
      rcases ih flag (pushTranslated id e buf) x hx with hb | hr
      · exact mem_pushTranslated id e buf x hb
      · exact Or.inr hr

theorem mem_drain_devices (inp : PollInput) (devs : Table) :
    ∀ (buf : List Event) (x : Event), x ∈ drain_devices inp devs buf →
      x ∈ buf ∨ isRawInputEvent x = true := by
  induction devs with
  | nil => intro buf x hx; exact Or.inl hx
  | cons p rest ih =>
    intro buf x hx
    simp only [drain_devices] at hx
    rcases ih (poll_device p.1 (inp.devReads p.1) buf) x hx with hb | hr
    · exact mem_poll_device_go p.1 (inp.devReads p.1) ReadFlag.NORMAL buf x hb
    · exact Or.inr hr

theorem drain_devices_all_raw (inp : PollInput) (devs : Table) :
    (drain_devices inp devs []).all isRawInputEvent = true := by
  rw [List.all_eq_true]
  intro x hx
  rcases mem_drain_devices inp devs [] x hx with hb | hr
  · cases hb
  · exact hr

theorem map_udev_event_lifecycle (o : String → Option Handle)
    (n : UdevDevice) (devs : Table) (e : Event) (t2 : Table)
    (h : map_udev_event o n devs = (some e, t2)) :
    isLifecycleEvent e = true := by
  unfold map_udev_event at h
  split_ifs at h
  · split at h
    · simp at h
    · split at h
      · simp at h
      · simp only [Prod.mk.injEq, Option.some.injEq] at h
        rw [← h.1]; rfl
  · split at h
    · simp at h
    · simp only [Prod.mk.injEq, Option.some.injEq] at h
      rw [← h.1]; rfl
  · simp at h

theorem mem_drain_monitor (o : String → Option Handle)
    (ns : List UdevDevice) :
    ∀ (devs : Table) (buf : List Event) (x : Event),
      x ∈ (drain_monitor o ns devs buf).2 →
        x ∈ buf ∨ isLifecycleEvent x = true := by
  induction ns with
  | nil => intro devs buf x hx; exact Or.inl hx
  | cons n rest ih =>
    intro devs buf x hx
    cases h : map_udev_event o n devs with
    | mk eOpt devs2 =>
      cases eOpt with
      | none =>
        rw [drain_monitor_cons_none o n rest devs buf devs2 h] at hx
        exact ih devs2 buf x hx
      | some e =>
        rw [drain_monitor_cons_some o n rest devs buf e devs2 h] at hx
        rcases ih devs2 (buf ++ [e]) x hx with hb | hl
        · rcases List.mem_append.mp hb with hb2 | hx1
          · exact Or.inl hb2
          · right
            have hxe : x = e := List.mem_singleton.mp hx1
            subst hxe
            exact map_udev_event_lifecycle o n devs x devs2 h
        · exact Or.inr hl

theorem drain_monitor_all_lifecycle (o : String → Option Handle)
    (ns : List UdevDevice) (devs : Table) :
    ((drain_monitor o ns devs []).2).all isLifecycleEvent = true := by
  rw [List.all_eq_true]
  intro x hx
  rcases mem_drain_monitor o ns devs [] x hx with hb | hl
  · cases hb
  · exact hl

theorem keys_cons (p : DeviceID × Handle) (t : Table) :
    keys (p :: t) = p.1 :: keys t := rfl

theorem mem_keys_tblInsert_iff (k k2 : DeviceID) (v : Handle) :
    ∀ t : Table, k2 ∈ keys (tblInsert k v t) ↔ k2 = k ∨ k2 ∈ keys t := by
  intro t
  induction t with
  | nil => simp [tblInsert, keys]
  | cons p rest ih =>
    obtain ⟨pk, pv⟩ := p
    by_cases hp : pk = k
    · subst hp
      rw [tblInsert, if_pos rfl, keys_cons, keys_cons]
      dsimp only
      simp only [List.mem_cons]
      tauto
    · rw [tblInsert, if_neg hp, keys_cons, keys_cons]
      dsimp only
      simp only [List.mem_cons]
      rw [ih]
      tauto

theorem keys_tblInsert_of_mem (k : DeviceID) (v : Handle) :
    ∀ t : Table, k ∈ keys t → keys (tblInsert k v t) = keys t := by
  intro t
  induction t with
  | nil => intro h; cases h
  | cons p rest ih =>
    intro h
    obtain ⟨pk, pv⟩ := p
    by_cases hp : pk = k
    · subst hp
      rw [tblInsert, if_pos rfl, keys_cons, keys_cons]
    · have h2 : k ∈ keys rest := by
        rcases List.mem_cons.mp h with h | h
        · exact absurd h.symm hp
        · exact h
      rw [tblInsert, if_neg hp, keys_cons, keys_cons, ih h2]

theorem nodup_keys_tblInsert (k : DeviceID) (v : Handle) :
    ∀ t : Table, (keys t).Nodup → (keys (tblInsert k v t)).Nodup := by
  intro t
  induction t with
  | nil => intro _; simp [tblInsert, keys]
  | cons p rest ih =>
    intro h
    obtain ⟨pk, pv⟩ := p
    rw [keys_cons, List.nodup_cons] at h
    by_cases hp : pk = k
    · subst hp
      rw [tblInsert, if_pos rfl, keys_cons, List.nodup_cons]
      exact h
    · rw [tblInsert, if_neg hp, keys_cons, List.nodup_cons]
      refine ⟨?_, ih h.2⟩
      intro hmem
      rcases (mem_keys_tblInsert_iff k pk v rest).mp hmem with he | hm
      · exact hp he
      · exact h.1 hm

theorem tblGet_tblInsert_self (k : DeviceID) (v : Handle) :
    ∀ t : Table, tblGet k (tblInsert k v t) = some v := by
  intro t
  induction t with
  | nil => simp [tblInsert, tblGet]
  | cons p rest ih =>
    obtain ⟨pk, pv⟩ := p
    by_cases hp : pk = k
    · subst hp
      rw [tblInsert, if_pos rfl, tblGet, if_pos rfl]
    · rw [tblInsert, if_neg hp, tblGet, if_neg hp]
      exact ih

theorem tblRemove_of_not_mem (k : DeviceID) :
    ∀ t : Table, k ∉ keys t → tblRemove k t = (none, t) := by
  intro t
  induction t with
  | nil => intro _; rfl
  | cons p rest ih =>
    intro h
    obtain ⟨pk, pv⟩ := p
    rw [keys_cons, List.mem_cons] at h
    push_neg at h
    have hp : ¬pk = k := by
      intro he
      subst he
      exact h.1 rfl
    rw [tblRemove, if_neg hp, ih h.2]

theorem tblRemove_fst_isSome (k : DeviceID) :
    ∀ t : Table, k ∈ keys t → ((tblRemove k t).1).isSome = true := by
  intro t
  induction t with
  | nil => intro h; cases h
  | cons p rest ih =>
    intro h
    obtain ⟨pk, pv⟩ := p
    by_cases hp : pk = k
    · rw [tblRemove, if_pos hp]
      rfl
    · rw [keys_cons, List.mem_cons] at h
      rcases h with h | h
      · exact absurd h.symm hp
      · rw [tblRemove, if_neg hp]
        exact ih h

theorem mem_keys_tblRemove_snd (k k2 : DeviceID) :
    ∀ t : Table, k2 ∈ keys (tblRemove k t).2 → k2 ∈ keys t := by
  intro t
  induction t with
  | nil => intro h; exact h
  | cons p rest ih =>
    intro h
    obtain ⟨pk, pv⟩ := p
    by_cases hp : pk = k
    · rw [tblRemove, if_pos hp] at h
      rw [keys_cons, List.mem_cons]
      exact Or.inr h
    · rw [tblRemove, if_neg hp] at h
      rw [keys_cons, List.mem_cons] at h ⊢
      rcases h with h | h
      · exact Or.inl h
      · exact Or.inr (ih h)

theorem not_mem_keys_tblRemove (k : DeviceID) :
    ∀ t : Table, (keys t).Nodup → k ∉ keys (tblRemove k t).2 := by
  intro t
  induction t with
  | nil => intro _ h; cases h
  | cons p rest ih =>
    intro hnd
    obtain ⟨pk, pv⟩ := p
    rw [keys_cons, List.nodup_cons] at hnd
    by_cases hp : pk = k
    · rw [tblRemove, if_pos hp]
      rw [← hp]
      exact hnd.1
    · rw [tblRemove, if_neg hp, keys_cons, List.mem_cons]
      push_neg
      exact ⟨fun he => hp he.symm, ih hnd.2⟩

theorem tblGet_tblRemove_ne (k k2 : DeviceID) (hne : k2 ≠ k) :
    ∀ t : Table, tblGet k2 (tblRemove k t).2 = tblGet k2 t := by
  intro t
  induction t with
  | nil => rfl
  | cons p rest ih =>
    obtain ⟨pk, pv⟩ := p
    by_cases hp : pk = k
    · subst hp
      rw [tblRemove, if_pos rfl, tblGet, if_neg (fun he => hne he.symm)]
    · rw [tblRemove, if_neg hp]
      by_cases hp2 : pk = k2
      · subst hp2
        rw [tblGet, if_pos rfl, tblGet, if_pos rfl]
      · rw [tblGet, if_neg hp2, tblGet, if_neg hp2]
        exact ih

theorem nodup_keys_tblRemove (k : DeviceID) :
    ∀ t : Table, (keys t).Nodup → (keys (tblRemove k t).2).Nodup := by
  intro t
  induction t with
  | nil => intro _; simp [tblRemove, keys]
  | cons p rest ih =>
    intro hnd
    obtain ⟨pk, pv⟩ := p
    rw [keys_cons, List.nodup_cons] at hnd
    by_cases hp : pk = k
    · rw [tblRemove, if_pos hp]
      exact hnd.2
    · rw [tblRemove, if_neg hp, keys_cons, List.nodup_cons]
      refine ⟨?_, ih hnd.2⟩
      intro hmem
      exact hnd.1 (mem_keys_tblRemove_snd k pk rest hmem)

theorem mem_keys_open_existing_of_mem (o : String → Option Handle)
    (enum : List UdevDevice) :
    ∀ (t : Table) (k : DeviceID), k ∈ keys t →
      k ∈ keys (open_existing_devices o enum t) := by
  induction enum with
  | nil => intro t k h; exact h
  | cons d ds ih =>
    intro t k h
    cases hdn : d.devnode with
    | none =>
      simp only [open_existing_devices, hdn]
      exact ih t k h
    | some node =>
      cases hres : o node with
      | none =>
        simp only [open_existing_devices, hdn, open_device, hres]
        exact ih t k h
      | some hnew =>
        simp only [open_existing_devices, hdn, open_device, hres]
        exact ih (tblInsert d.sysname hnew t) k
          ((mem_keys_tblInsert_iff d.sysname k hnew t).mpr (Or.inr h))

theorem mem_keys_open_existing_self (o : String → Option Handle)
    (d : UdevDevice) (node : String) (h2 : Handle)
    (hn : d.devnode = some node) (ho : o node = some h2) :
    ∀ enum : List UdevDevice, d ∈ enum →
      ∀ t : Table, d.sysname ∈ keys (open_existing_devices o enum t) := by
  intro enum
  induction enum with
  | nil => intro hd; cases hd
  | cons e ds ih =>
    intro hd t
    rcases List.mem_cons.mp hd with he | hmem
    · subst he
      simp only [open_existing_devices, hn, open_device, ho]
      exact mem_keys_open_existing_of_mem o ds (tblInsert d.sysname h2 t)
        d.sysname
        ((mem_keys_tblInsert_iff d.sysname d.sysname h2 t).mpr (Or.inl rfl))
    · cases hdn : e.devnode with
      | none =>
        simp only [open_existing_devices, hdn]
        exact ih hmem t
      | some node2 =>
        cases hres : o node2 with
        | none =>
          simp only [open_existing_devices, hdn, open_device, hres]
          exact ih hmem t
        | some hnew =>
          simp only [open_existing_devices, hdn, open_device, hres]
          exact ih hmem (tblInsert e.sysname hnew t)

/-! Claim theorems. -/

/-- C1: the claim states that a key-type record with value 1 yields a
button-press and value 0 a button-release (the Linux evdev value
semantics, which the source's own `// Key repeat` comment for value 2
follows).  The code has the two arms swapped: evaluating
`map_device_event` at a key record with code 30 shows value 1 yields
`RawButtonRelease` and value 0 yields `RawButtonPress`. -/
theorem c1_key_value_swapped :
    map_device_event "D" ⟨EV_KEY, 30, 1⟩
        = some (Event.RawButtonRelease "D" 30)
    ∧ map_device_event "D" ⟨EV_KEY, 30, 0⟩
        = some (Event.RawButtonPress "D" 30) :=
  ⟨rfl, rfl⟩

/-- C2 counterexample: with device `D` already open (handle 1), an `add`
notification for `D` whose node opens successfully (handle 2) is NOT
skipped: a (duplicate) `DeviceAdded` event is produced and the old handle
is replaced by the new one rather than retained. -/
theorem c2_counterexample :
    tblGet "D" [("D", (⟨1⟩ : Handle))] = some ⟨1⟩
    ∧ map_udev_event (fun _ => some ⟨2⟩) ⟨"add", "D", some "p"⟩
        [("D", ⟨1⟩)] = (some (Event.DeviceAdded "D"), [("D", ⟨2⟩)])
    ∧ (⟨2⟩ : Handle) ≠ ⟨1⟩ :=
  ⟨rfl, rfl, by decide⟩

/-- C3 counterexample: with a non-empty Event Buffer and no read-ready
source, poll reports not-ready (instead of yielding the buffered event,
as the claim's "if and only if" requires) and re-arms nothing. -/
theorem c3_counterexample :
    Stream.poll ⟨false, fun _ => false, fun _ => [], [], fun _ => none⟩
        ⟨[], [Event.DeviceAdded "d"]⟩
      = (PollRes.NotReady, ⟨[], [Event.DeviceAdded "d"]⟩, 0)
    ∧ ([Event.DeviceAdded "d"] : List Event) ≠ [] :=
  ⟨rfl, by decide⟩

/-- C4 counterexample: reads `[Sync e, Again, Success e2]` — the `Again`
in sync mode is the handle's resynchronization-complete signal, yet the
pass performs exactly two reads (trace `[NORMAL, SYNC]`): it ends right
there, so normal-mode reads do not resume within the same pass and the
flag is never reset to normal during the pass. -/
theorem c4_counterexample :
    (poll_device_go "D" ReadFlag.NORMAL
        [ReadStatus.Sync ⟨EV_KEY, 30, 1⟩, ReadStatus.Again,
         ReadStatus.Success ⟨EV_KEY, 31, 1⟩] []).2
      = [ReadFlag.NORMAL, ReadFlag.SYNC]
    ∧ ([ReadFlag.NORMAL, ReadFlag.SYNC] : List ReadFlag).length = 2 :=
  ⟨rfl, rfl⟩

/-- C7 counterexample: the absolute-axis identity is computed by a `u16`
addition `REL_CNT + code`, which wraps: the absolute-axis code 65535
yields axis identity 15, colliding with the relative-axis code 15 (which
is below `REL_CNT`), so the two classes do produce the same identity for
different raw codes. -/
theorem c7_counterexample :
    map_device_event "D" ⟨EV_REL, 15, 0⟩ = some (Event.RawMotion "D" 15 0)
    ∧ map_device_event "D" ⟨EV_ABS, 65535, 0⟩
        = some (Event.RawMotion "D" 15 0)
    ∧ 15 < REL_CNT ∧ (65535 : Nat) ≠ 15 :=
  ⟨rfl, rfl, by decide, by decide⟩

/-- C2 amended: an `add` notification for a DeviceID already present in
the table is not skipped — the node is re-opened and, on success, the new
handle replaces the old one (which is dropped, closing its node, so
nothing leaks) and another `DeviceAdded` event is emitted.  The table,
being a map, still never holds two entries for one DeviceID: the key set
is unchanged and stays duplicate-free, with the new handle stored. -/
theorem c2_add_replaces_handle (o : String → Option Handle) (t : Table)
    (D : DeviceID) (p : String) (h2 : Handle)
    (hnd : (keys t).Nodup) (hmem : D ∈ keys t) (hopen : o p = some h2) :
    map_udev_event o ⟨"add", D, some p⟩ t
        = (some (Event.DeviceAdded D), tblInsert D h2 t)
    ∧ tblGet D (tblInsert D h2 t) = some h2
    ∧ keys (tblInsert D h2 t) = keys t
    ∧ (keys (tblInsert D h2 t)).Nodup := by
  refine ⟨?_, tblGet_tblInsert_self D h2 t,
    keys_tblInsert_of_mem D h2 t hmem, nodup_keys_tblInsert D h2 t hnd⟩
  simp [map_udev_event, open_device, hopen]

/-- C2 witness: the amended behaviour at the concrete duplicate-add
counterexample input. -/
theorem c2_witness :
    (keys [("D", (⟨1⟩ : Handle))]).Nodup
    ∧ "D" ∈ keys [("D", (⟨1⟩ : Handle))]
    ∧ (map_udev_event (fun _ => some ⟨2⟩) ⟨"add", "D", some "p"⟩
          [("D", ⟨1⟩)]
        = (some (Event.DeviceAdded "D"), tblInsert "D" ⟨2⟩ [("D", ⟨1⟩)])
      ∧ tblGet "D" (tblInsert "D" ⟨2⟩ [("D", ⟨1⟩)]) = some ⟨2⟩
      ∧ keys (tblInsert "D" ⟨2⟩ [("D", ⟨1⟩)]) = keys [("D", ⟨1⟩)]
      ∧ (keys (tblInsert "D" ⟨2⟩ [("D", ⟨1⟩)])).Nodup) :=
  ⟨by decide, by decide,
    c2_add_replaces_handle (fun _ => some ⟨2⟩) [("D", ⟨1⟩)] "D" "p" ⟨2⟩
      (by decide) (by decide) rfl⟩

/-- C7 amended: the axis-identity mapping is injective within each class
(the relative identity is the code itself; the absolute identity
`(REL_CNT + code) % 2 ^ 16` is injective over `u16` codes), and the two
classes are disjoint for every relative code below `REL_CNT` and every
absolute code whose identity computation does not wrap the `u16` addition
(`REL_CNT + code ≤ 65535`; all real absolute-axis codes are below
`ABS_CNT = 64`, far under that bound). -/
theorem c7_axis_identity (id : DeviceID) (c1 c2 : Nat) (v1 v2 : Int)
    (hc1 : c1 < 65536) (hc2 : c2 < 65536) :
    (c1 ≠ c2 →
      map_device_event id ⟨EV_REL, c1, v1⟩
        ≠ map_device_event id ⟨EV_REL, c2, v2⟩)
    ∧ (c1 ≠ c2 →
      map_device_event id ⟨EV_ABS, c1, v1⟩
        ≠ map_device_event id ⟨EV_ABS, c2, v2⟩)
    ∧ (c1 < REL_CNT → REL_CNT + c2 ≤ 65535 →
      map_device_event id ⟨EV_REL, c1, v1⟩
        ≠ map_device_event id ⟨EV_ABS, c2, v2⟩) := by
  have hrel : ∀ (c : Nat) (v : Int),
      map_device_event id ⟨EV_REL, c, v⟩
        = some (Event.RawMotion id c v) := fun _ _ => rfl
  have habs : ∀ (c : Nat) (v : Int),
      map_device_event id ⟨EV_ABS, c, v⟩
        = some (Event.RawMotion id ((REL_CNT + c) % 65536) v) :=
    fun _ _ => rfl
  refine ⟨?_, ?_, ?_⟩
  · intro hne heq
    rw [hrel, hrel] at heq
    simp only [Option.some.injEq, Event.RawMotion.injEq] at heq
    exact hne heq.2.1
  · intro hne heq
    rw [habs, habs] at heq
    simp only [Option.some.injEq, Event.RawMotion.injEq] at heq
    have := heq.2.1
    simp only [REL_CNT] at this
    omega
  · intro hlt hnw heq
    rw [hrel, habs] at heq
    simp only [Option.some.injEq, Event.RawMotion.injEq] at heq
    have := heq.2.1
    simp only [REL_CNT] at this hlt hnw
    omega

/-- C7 witness: the amended statement at the concrete codes 1 and 2. -/
theorem c7_witness :
    (1 : Nat) < 65536 ∧ (2 : Nat) < 65536
    ∧ (((1 : Nat) ≠ 2 →
        map_device_event "d" ⟨EV_REL, 1, 0⟩
          ≠ map_device_event "d" ⟨EV_REL, 2, 0⟩)
      ∧ ((1 : Nat) ≠ 2 →
        map_device_event "d" ⟨EV_ABS, 1, 0⟩
          ≠ map_device_event "d" ⟨EV_ABS, 2, 0⟩)
      ∧ ((1 : Nat) < REL_CNT → REL_CNT + 2 ≤ 65535 →
        map_device_event "d" ⟨EV_REL, 1, 0⟩
          ≠ map_device_event "d" ⟨EV_ABS, 2, 0⟩)) :=
  ⟨by decide, by decide,
    c7_axis_identity "d" 1 2 0 0 (by decide) (by decide)⟩

theorem sync_flags_all (id : DeviceID) :
    ∀ (reads : List ReadStatus) (buf : List Event),
      ((poll_device_go id ReadFlag.SYNC reads buf).2).all
        (fun g => g == ReadFlag.SYNC) = true := by
  intro reads
  induction reads with
  | nil => intro buf; rfl
  | cons r rs ih =>
    intro buf
    cases r with
    | Again => rfl
    | Sync e2 => simp [poll_device_go, ih]
    | Success e2 => simp [poll_device_go, ih]

/-- C4 amended: after a read reports the resync condition, the flag is
set to `READ_FLAG_SYNC` and every subsequent read of the pass uses sync
mode — it is never reset within the pass; the pass ends at the first
`Again` (which, in sync mode, is the handle's resynchronization-complete
signal), so normal-mode reads resume only in a later pass; the flag is a
local of `poll_device`, so every pass starts in `READ_FLAG_NORMAL`. -/
theorem c4_sync_flag_behavior (id : DeviceID) (e : InputEvent)
    (reads rest : List ReadStatus) (f : ReadFlag) (buf : List Event) :
    (poll_device_go id ReadFlag.NORMAL (ReadStatus.Sync e :: rest) buf).2
        = ReadFlag.NORMAL
          :: (poll_device_go id ReadFlag.SYNC rest
                (pushTranslated id e buf)).2
    ∧ ((poll_device_go id ReadFlag.SYNC reads buf).2).all
        (fun g => g == ReadFlag.SYNC) = true
    ∧ (poll_device_go id f (ReadStatus.Again :: rest) buf).2 = [f]
    ∧ poll_device id reads buf
        = (poll_device_go id ReadFlag.NORMAL reads buf).1 :=
  ⟨rfl, sync_flags_all id reads buf, rfl, rfl⟩

/-- C6: a `remove` notification for a DeviceID present in the table
removes exactly that entry (the handle is no longer stored; its drop
closes the node), emits exactly one `DeviceRemoved` event, and leaves
every other entry untouched with the key set still duplicate-free; a
`remove` for an absent DeviceID emits no event and leaves the table
unchanged — `map_udev_event` is total, so no error propagates. -/
theorem c6_remove_semantics (o : String → Option Handle)
    (dn : Option String) (t : Table) (D : DeviceID)
    (hnd : (keys t).Nodup) :
    (D ∈ keys t →
      map_udev_event o ⟨"remove", D, dn⟩ t
          = (some (Event.DeviceRemoved D), (tblRemove D t).2)
      ∧ D ∉ keys (tblRemove D t).2
      ∧ (∀ k, k ≠ D → tblGet k (tblRemove D t).2 = tblGet k t)
      ∧ (keys (tblRemove D t).2).Nodup)
    ∧ (D ∉ keys t → map_udev_event o ⟨"remove", D, dn⟩ t = (none, t)) := by
  constructor
  · intro hmem
    refine ⟨?_, not_mem_keys_tblRemove D t hnd,
      fun k hk => tblGet_tblRemove_ne D k hk t, nodup_keys_tblRemove D t hnd⟩
    have hsome := tblRemove_fst_isSome D t hmem
    cases hr : tblRemove D t with
    | mk r1 r2 =>
      cases r1 with
      | none => rw [hr] at hsome; simp at hsome
      | some hOld => simp [map_udev_event, hr]
  · intro habs
    simp [map_udev_event, tblRemove_of_not_mem D t habs]

/-- C6 witness: the remove semantics at a concrete one-entry table. -/
theorem c6_witness :
    (keys [("a", (⟨5⟩ : Handle))]).Nodup
    ∧ (("a" ∈ keys [("a", (⟨5⟩ : Handle))] →
        map_udev_event (fun _ => none) ⟨"remove", "a", none⟩
            [("a", ⟨5⟩)] = (some (Event.DeviceRemoved "a"),
              (tblRemove "a" [("a", ⟨5⟩)]).2)
        ∧ "a" ∉ keys (tblRemove "a" [("a", (⟨5⟩ : Handle))]).2
        ∧ (∀ k, k ≠ "a" →
            tblGet k (tblRemove "a" [("a", (⟨5⟩ : Handle))]).2
              = tblGet k [("a", ⟨5⟩)])
        ∧ (keys (tblRemove "a" [("a", (⟨5⟩ : Handle))]).2).Nodup)
      ∧ ("a" ∉ keys [("a", (⟨5⟩ : Handle))] →
        map_udev_event (fun _ => none) ⟨"remove", "a", none⟩
            [("a", ⟨5⟩)] = (none, [("a", ⟨5⟩)]))) :=
  ⟨by decide, c6_remove_semantics (fun _ => none) none [("a", ⟨5⟩)] "a"
    (by decide)⟩

/-- C9: for every absolute- or relative-axis record, the emitted
`RawMotion` carries the record's `i32` value unchanged (`event.value as
f64` widens it without modification), and that widening is exact: the
magnitude of any `i32` is below `2 ^ 53`, the bound under which binary64
represents integers exactly. -/
theorem c9_motion_value_exact (id : DeviceID) (e : InputEvent)
    (hty : e.type_ = EV_ABS ∨ e.type_ = EV_REL)
    (hlo : -(2 ^ 31) ≤ e.value) (hhi : e.value < 2 ^ 31) :
    (∃ a : Nat, map_device_event id e = some (Event.RawMotion id a e.value))
    ∧ f64ExactInt e.value := by
  constructor
  · obtain ⟨ty, c, v⟩ := e
    rcases hty with h | h
    · rw [show (InputEvent.mk ty c v).type_ = ty from rfl] at h
      subst h
      exact ⟨(REL_CNT + c) % 65536, rfl⟩
    · rw [show (InputEvent.mk ty c v).type_ = ty from rfl] at h
      subst h
      exact ⟨c, rfl⟩
  · unfold f64ExactInt
    have h1 : (2 : Int) ^ 31 = 2147483648 := by norm_num
    have h2 : (2 : Nat) ^ 53 = 9007199254740992 := by norm_num
    rw [h1] at hlo hhi
    rw [h2]
    omega

/-- C9 witness: a concrete absolute-axis record with value 7. -/
theorem c9_witness :
    ((⟨EV_ABS, 5, 7⟩ : InputEvent).type_ = EV_ABS
      ∨ (⟨EV_ABS, 5, 7⟩ : InputEvent).type_ = EV_REL)
    ∧ -(2 ^ 31) ≤ (⟨EV_ABS, 5, 7⟩ : InputEvent).value
    ∧ (⟨EV_ABS, 5, 7⟩ : InputEvent).value < 2 ^ 31
    ∧ ((∃ a : Nat, map_device_event "d" ⟨EV_ABS, 5, 7⟩
          = some (Event.RawMotion "d" a (⟨EV_ABS, 5, 7⟩ : InputEvent).value))
      ∧ f64ExactInt (⟨EV_ABS, 5, 7⟩ : InputEvent).value) :=
  ⟨Or.inl rfl, by decide, by decide,
    c9_motion_value_exact "d" ⟨EV_ABS, 5, 7⟩ (Or.inl rfl) (by decide)
      (by decide)⟩

/-- C3 amended: poll reports not-ready iff either no source is read-ready
(the early return, which consults neither the buffer nor `need_read`) or
the buffer is empty after both drain passes; the monitor's readiness
interest is re-armed exactly once in the post-drain-empty case and not at
all otherwise — in particular a non-empty buffer with no ready source
still reports not-ready, without re-arming. -/
theorem c3_not_ready_iff (inp : PollInput) (s : StreamState) :
    ((Stream.poll inp s).1 = PollRes.NotReady ↔
      (sourcesNotReady inp s.devices = true
        ∨ (drain_monitor inp.openRes inp.notifs s.devices
            (drain_devices inp s.devices s.buffer)).2 = []))
    ∧ (Stream.poll inp s).2.2 =
        (if sourcesNotReady inp s.devices then 0
         else if (drain_monitor inp.openRes inp.notifs s.devices
             (drain_devices inp s.devices s.buffer)).2 = [] then 1
         else 0) := by
  cases hg : sourcesNotReady inp s.devices with
  | true => simp [Stream.poll, hg]
  | false =>
    cases hdm : (drain_monitor inp.openRes inp.notifs s.devices
        (drain_devices inp s.devices s.buffer)).2 with
    | nil => simp [Stream.poll, hg, hdm]
    | cons e rest => simp [Stream.poll, hg, hdm]

/-- C5: when some source is ready, one poll pass appends the translated
device events (all raw button/motion events, in device order) and then
the monitor's lifecycle events (all `DeviceAdded`/`DeviceRemoved`, in
notification order) to the back of the FIFO buffer, and yields its oldest
element: the buffer after the drains is exactly `old ++ deviceEvents ++
monitorEvents`, so nothing buffered is ever reordered and step-2 events
precede step-3 events of the same pass and everything from earlier
passes precedes both. -/
theorem c5_buffer_fifo_ordering (inp : PollInput) (s : StreamState)
    (hready : sourcesNotReady inp s.devices = false) :
    Stream.poll inp s =
      (match s.buffer ++ drain_devices inp s.devices []
          ++ (drain_monitor inp.openRes inp.notifs s.devices []).2 with
        | [] => (PollRes.NotReady,
            ⟨(drain_monitor inp.openRes inp.notifs s.devices []).1, []⟩, 1)
        | e :: rest => (PollRes.Ready e,
            ⟨(drain_monitor inp.openRes inp.notifs s.devices []).1, rest⟩,
            0))
    ∧ (drain_devices inp s.devices []).all isRawInputEvent = true
    ∧ ((drain_monitor inp.openRes inp.notifs s.devices []).2).all
        isLifecycleEvent = true := by
  refine ⟨?_, drain_devices_all_raw inp s.devices,
    drain_monitor_all_lifecycle inp.openRes inp.notifs s.devices⟩
  have hdd := drain_devices_split inp s.devices s.buffer
  simp only [Stream.poll, hready, Bool.false_eq_true, if_false]
  rw [hdd, drain_monitor_split inp.openRes inp.notifs s.devices
    (s.buffer ++ drain_devices inp s.devices [])]

/-- C5 witness input: monitor ready, nothing else. -/
def c5Inp : PollInput := ⟨true, fun _ => false, fun _ => [], [],
  fun _ => none⟩

/-- C5 witness state: empty table and buffer. -/
def c5State : StreamState := ⟨[], []⟩

/-- C5 witness: the ordering theorem at a concrete ready input. -/
theorem c5_witness :
    sourcesNotReady c5Inp c5State.devices = false
    ∧ (Stream.poll c5Inp c5State =
        (match c5State.buffer ++ drain_devices c5Inp c5State.devices []
            ++ (drain_monitor c5Inp.openRes c5Inp.notifs c5State.devices
                []).2 with
          | [] => (PollRes.NotReady,
              ⟨(drain_monitor c5Inp.openRes c5Inp.notifs c5State.devices
                  []).1, []⟩, 1)
          | e :: rest => (PollRes.Ready e,
              ⟨(drain_monitor c5Inp.openRes c5Inp.notifs c5State.devices
                  []).1, rest⟩, 0))
      ∧ (drain_devices c5Inp c5State.devices []).all isRawInputEvent = true
      ∧ ((drain_monitor c5Inp.openRes c5Inp.notifs c5State.devices
          []).2).all isLifecycleEvent = true) :=
  ⟨rfl, c5_buffer_fifo_ordering c5Inp c5State rfl⟩

/-- C8: construction with the fallible setup succeeding always returns a
stream (per-device open failures during seeding are non-fatal), whose
table is the seeding fold over the enumeration and whose Event Buffer is
empty — seeding pushes no event, so no `DeviceAdded` for a pre-existing
device can ever be yielded from the seeding pass; every enumerated device
with a devnode whose open succeeds is present in the table; and a setup
failure is the only fatal construction error. -/
theorem c8_seeding (o : String → Option Handle) (enum : List UdevDevice) :
    Stream.new true o enum = some ⟨open_existing_devices o enum [], []⟩
    ∧ (∀ s : StreamState, Stream.new true o enum = some s → s.buffer = [])
    ∧ (∀ d ∈ enum, ∀ (node : String) (h : Handle),
        d.devnode = some node → o node = some h →
          d.sysname ∈ keys (open_existing_devices o enum []))
    ∧ Stream.new false o enum = none := by
  refine ⟨rfl, ?_, ?_, rfl⟩
  · intro s hs
    have h2 : some (⟨open_existing_devices o enum [], []⟩ : StreamState)
        = some s := hs
    injection h2 with h3
    rw [← h3]
  · intro d hd node h hdn ho
    exact mem_keys_open_existing_self o d node h hdn ho enum hd []

/-- C8 witness open oracle: every node opens as handle 3. -/
def c8Open : String → Option Handle := fun _ => some ⟨3⟩

/-- C8 witness enumeration: one pre-existing device `D`. -/
def c8Enum : List UdevDevice := [⟨"", "D", some "p"⟩]

/-- C8 witness: the seeding theorem at a one-device enumeration. -/
theorem c8_witness :
    Stream.new true c8Open c8Enum
        = some ⟨open_existing_devices c8Open c8Enum [], []⟩
    ∧ (∀ s : StreamState, Stream.new true c8Open c8Enum = some s →
        s.buffer = [])
    ∧ (∀ d ∈ c8Enum, ∀ (node : String) (h : Handle),
        d.devnode = some node → c8Open node = some h →
          d.sysname ∈ keys (open_existing_devices c8Open c8Enum []))
    ∧ Stream.new false c8Open c8Enum = none :=
  c8_seeding c8Open c8Enum

/-- C10: the device drain pass only appends to the back of the Event
Buffer — the old buffer is an unchanged front segment both for a single
device and for the whole pass — and it never touches the Device Table:

a poll with no pending monitor notification leaves the table exactly as
it was. -/
theorem c10_drain_appends_only (inp : PollInput) (s : StreamState)
    (id : DeviceID) (reads : List ReadStatus) (buf : List Event) :
    poll_device id reads buf = buf ++ poll_device id reads []
    ∧ drain_devices inp s.devices buf = buf ++ drain_devices inp s.devices []
    ∧ (inp.notifs = [] → ((Stream.poll inp s).2.1).devices = s.devices) := by
  refine ⟨poll_device_split id reads buf,
    drain_devices_split inp s.devices buf, ?_⟩
  intro hn
  cases hg : sourcesNotReady inp s.devices with
  | true => simp [Stream.poll, hg]
  | false =>
    simp only [Stream.poll, hg, hn]
    cases hb : drain_devices inp s.devices s.buffer with
    | nil => simp [drain_monitor, hb]
    | cons e rest => simp [drain_monitor, hb]

/-- C10 witness input: nothing ready, no notifications. -/
def c10Inp : PollInput := ⟨false, fun _ => false, fun _ => [], [],
  fun _ => none⟩

/-- C10 witness state: empty table and buffer. -/
def c10State : StreamState := ⟨[], []⟩

/-- C10 witness: the drain frame conditions at concrete inputs. -/
theorem c10_witness :
    poll_device "d" [] [] = [] ++ poll_device "d" [] []
    ∧ drain_devices c10Inp c10State.devices []
        = [] ++ drain_devices c10Inp c10State.devices []
    ∧ (c10Inp.notifs = [] →
        ((Stream.poll c10Inp c10State).2.1).devices = c10State.devices) :=
  c10_drain_appends_only c10Inp c10State "d" [] []

end Wair
